import Mathlib

set_option maxRecDepth 4000

/-- Two's-complement wrap of an integer into the i8 range [-128, 127].
Rust's release-profile arithmetic on i8 wraps on overflow; every mutation of
an i8 quantity in the source is modelled through this function. -/
def wrap8 (x : Int) : Int := (x + 128) % 256 - 128

/-- The token alphabet of the lexer, one constructor per variant of the Rust
enum Token in src/lang/lexer.rs. The Number payload is the i8 payload of
Token::Number; the source only ever constructs it with the literals 0..9. -/
inductive Token where
  | LParen : Token
  | RParen : Token
  | Plus : Token
  | Minus : Token
  | Times : Token
  | Divide : Token
  | Number : Int → Token
  | Point : Token
  | Comment : Token
  | None : Token
  | NaN : Token
  | Whitespace : Token
deriving DecidableEq, Repr

/-- The lexer state, mirroring the Rust struct Lexer: the stored lines
(each Rust String modelled as its list of characters), and the three i8
fields line, count and token. -/
structure Lexer where
  lines : List (List Char)
  line : Int
  count : Int
  token : Int
deriving DecidableEq, Repr

/-- Lexer::new — stores the lines and zero-initialises the three counters. -/
def Lexer.new (lines : List (List Char)) : Lexer :=
  { lines := lines, line := 0, count := 0, token := 0 }

/-- The per-character match of Lexer::next_line (lines 92-116 of the source),
one arm per source arm, with the wildcard arm producing NaN. -/
def tokenOfChar (c : Char) : Token :=
  match c with
  | '(' => Token.LParen
  | ')' => Token.RParen
  | '+' => Token.Plus
  | '-' => Token.Minus
  | '*' => Token.Times
  | '/' => Token.Divide
  | '0' => Token.Number 0
  | '1' => Token.Number 1
  | '2' => Token.Number 2
  | '3' => Token.Number 3
  | '4' => Token.Number 4
  | '5' => Token.Number 5
  | '6' => Token.Number 6
  | '7' => Token.Number 7
  | '8' => Token.Number 8
  | '9' => Token.Number 9
  | '.' => Token.Point
  | ' ' => Token.Whitespace
  | _ => Token.NaN

/-- The character loop of Lexer::next_line: walks the line left to right,
pushing one token per character onto the accumulator (the tokens vector). -/
def scanLoop : List Char → List Token → List Token
  | [], tokens => tokens
  | c :: rest, tokens => scanLoop rest (tokens ++ [tokenOfChar c])

/-- line.starts_with("//") of the source, on the character-list model. -/
def startsWith2 (line : List Char) : Bool :=
  match line with
  | '/' :: '/' :: _ => true
  | _ => false

/-- The classification of a looked-up line, exactly the tail of
Lexer::next_line: the is_empty early return, the starts_with("//") early
return, then the per-character scan starting from the empty tokens vector. -/
def classifyLine (line : List Char) : List Token :=
  if line = [] then [Token.None]
  else if startsWith2 line then [Token.Comment]
  else scanLoop line []

/-- The lookup loop of Lexer::next_line (lines 74-82): walks the stored
lines with an i8 counter, returning the first entry whose counter value
equals the target (self.line - 1) and the empty string when none does.
The counter increment wraps like the i8 count variable of the source. -/
def lookupLine : List (List Char) → Int → Int → List Char
  | [], _, _ => []
  | e :: rest, count, target =>
    if count = target then e else lookupLine rest (wrap8 (count + 1)) target

/-- Lexer::next_line — increments the i8 line counter (wrapping), looks up
the line whose index is self.line - 1 (i8 subtraction) with a counter that
starts at 0, and classifies it; returns the token vector and the new state. -/
def Lexer.next_line (lx : Lexer) : List Token × Lexer :=
  let newLine := wrap8 (lx.line + 1)
  let found := lookupLine lx.lines 0 (wrap8 (newLine - 1))
  (classifyLine found, { lx with line := newLine })

/-- Runs n successive next_line calls, collecting the n token vectors in
call order together with the final state. -/
def runN : Nat → Lexer → List (List Token) × Lexer
  | 0, lx => ([], lx)
  | n + 1, lx =>
    let step := lx.next_line
    let rest := runN n step.2
    (step.1 :: rest.1, rest.2)

/-- The character-to-token table exactly as the specification states it:
a first-match chain over the listed characters, digits carrying their
value, and every other character mapping to the unknown marker. -/
def specCharToken (c : Char) : Token :=
  if c = '(' then Token.LParen
  else if c = ')' then Token.RParen
  else if c = '+' then Token.Plus
  else if c = '-' then Token.Minus
  else if c = '*' then Token.Times
  else if c = '/' then Token.Divide
  else if c = '0' then Token.Number 0
  else if c = '1' then Token.Number 1
  else if c = '2' then Token.Number 2
  else if c = '3' then Token.Number 3
  else if c = '4' then Token.Number 4
  else if c = '5' then Token.Number 5
  else if c = '6' then Token.Number 6
  else if c = '7' then Token.Number 7
  else if c = '8' then Token.Number 8
  else if c = '9' then Token.Number 9
  else if c = '.' then Token.Point
  else if c = ' ' then Token.Whitespace
  else Token.NaN

/-- 257 stored lines: 256 copies of the line 1 followed by the line 2.
Concrete input exhibiting the wrap of the i8 line counter. -/
def linesCE : List (List Char) := List.replicate 256 ['1'] ++ [['2']]

/- ## Helper lemmas -/

theorem wrap8_range (x : Int) : -128 ≤ wrap8 x ∧ wrap8 x ≤ 127 := by
  unfold wrap8; omega

theorem wrap8_of_range (x : Int) (h1 : -128 ≤ x) (h2 : x ≤ 127) : wrap8 x = x := by
  unfold wrap8; omega

theorem wrap8_add_left (a b : Int) : wrap8 (wrap8 a + b) = wrap8 (a + b) := by
  unfold wrap8; omega

theorem wrap8_wrap8 (a : Int) : wrap8 (wrap8 a) = wrap8 a := by
  unfold wrap8; omega

theorem wrap8_inj_small (a b : Int) (ha0 : 0 ≤ a) (ha : a ≤ 255)
    (hb0 : 0 ≤ b) (hb : b ≤ 255) (h : wrap8 a = wrap8 b) : a = b := by
  unfold wrap8 at h; omega

theorem next_line_fst (lx : Lexer) :
    (Lexer.next_line lx).1 = classifyLine (lookupLine lx.lines 0 (wrap8 lx.line)) := by
  unfold Lexer.next_line
  have h : wrap8 (wrap8 (lx.line + 1) - 1) = wrap8 lx.line := by
    have := wrap8_add_left (lx.line + 1) (-1)
    simpa using this
  simp [h]

theorem next_line_snd (lx : Lexer) :
    (Lexer.next_line lx).2 =
      { lines := lx.lines, line := wrap8 (lx.line + 1), count := lx.count, token := lx.token } :=
  rfl

theorem scanLoop_eq (cs : List Char) (acc : List Token) :
    scanLoop cs acc = acc ++ cs.map tokenOfChar := by
  induction cs generalizing acc with
  | nil => simp [scanLoop]
  | cons c rest ih => simp [scanLoop, ih]

theorem tokenOfChar_eq_spec (c : Char) : tokenOfChar c = specCharToken c := by
  unfold tokenOfChar specCharToken
  split <;> simp_all

theorem lookupLine_get (lines : List (List Char)) :
    ∀ (i : Nat) (j : Int), (hi : i < lines.length) →
    (∀ i2 : Nat, i2 < i → wrap8 (j + i2) ≠ wrap8 (j + i)) →
    lookupLine lines (wrap8 j) (wrap8 (j + i)) = lines.get ⟨i, hi⟩ := by
  induction lines with
  | nil => intro i j hi _; simp at hi
  | cons e rest ih =>
    intro i j hi hne
    cases i with
    | zero => simp [lookupLine]
    | succ i2 =>
      have h0 : wrap8 j ≠ wrap8 (j + (i2 + 1 : Nat)) := by
        have := hne 0 (Nat.succ_pos i2)
        simpa using this
      unfold lookupLine
      rw [if_neg h0]
      have harg : (j + (i2 + 1 : Nat) : Int) = (j + 1) + (i2 : Nat) := by
        push_cast; ring
      rw [wrap8_add_left j 1, harg]
      have hi2 : i2 < rest.length := by simpa using Nat.lt_of_succ_lt_succ hi
      have hne2 : ∀ i3 : Nat, i3 < i2 → wrap8 ((j + 1) + i3) ≠ wrap8 ((j + 1) + i2) := by
        intro i3 h3
        have := hne (i3 + 1) (by omega)
        have e3 : (j + (i3 + 1 : Nat) : Int) = (j + 1) + (i3 : Nat) := by push_cast; ring
        rw [e3, harg] at this
        exact this
      rw [ih i2 (j + 1) hi2 hne2]
      rfl

theorem lookupLine_none (lines : List (List Char)) :
    ∀ (j t : Int), (∀ i : Nat, i < lines.length → wrap8 (j + i) ≠ t) →
    lookupLine lines (wrap8 j) t = [] := by
  induction lines with
  | nil => intro j t _; rfl
  | cons e rest ih =>
    intro j t hne
    have h0 : wrap8 j ≠ t := by
      have := hne 0 (by simp)
      simpa using this
    unfold lookupLine
    rw [if_neg h0, wrap8_add_left j 1]
    apply ih
    intro i hi
    have := hne (i + 1) (by simpa using Nat.succ_lt_succ hi)
    have e3 : (j + (i + 1 : Nat) : Int) = (j + 1) + (i : Nat) := by push_cast; ring
    rw [e3] at this
    exact this

theorem runN_snd (n : Nat) (lx : Lexer) :
    (runN (n + 1) lx).2 = (runN n (Lexer.next_line lx).2).2 := rfl

theorem runN_state (n : Nat) (lx : Lexer) (h1 : -128 ≤ lx.line) (h2 : lx.line ≤ 127) :
    (runN n lx).2 =
      { lines := lx.lines, line := wrap8 (lx.line + n), count := lx.count, token := lx.token } := by
  induction n generalizing lx with
  | zero =>
    simp [runN, wrap8_of_range lx.line h1 h2]
  | succ n ih =>
    rw [runN_snd, next_line_snd]
    have hr := wrap8_range (lx.line + 1)
    rw [ih _ hr.1 hr.2]
    have : wrap8 (wrap8 (lx.line + 1) + n) = wrap8 (lx.line + (n + 1 : Nat)) := by
      rw [wrap8_add_left]; congr 1; push_cast; ring
    simp [this]

theorem runN_succ_back (n : Nat) (lx : Lexer) :
    runN (n + 1) lx =
      ((runN n lx).1 ++ [(Lexer.next_line (runN n lx).2).1],
       (Lexer.next_line (runN n lx).2).2) := by
  induction n generalizing lx with
  | zero => simp [runN]
  | succ n ih =>
    show (let step := lx.next_line
          let rest := runN (n + 1) step.2
          (step.1 :: rest.1, rest.2)) = _
    simp only [ih (Lexer.next_line lx).2]
    simp [runN]

/- ## Claim theorems -/

/-- Claim C1: for every lexer whose looked-up line is non-empty and does not
start with the two characters //, next_line returns exactly one token per
character of the line, in left-to-right order, mapped by the table of the
specification (specCharToken). -/
theorem claim_C1 (lx : Lexer) (L : List Char)
    (hL : lookupLine lx.lines 0 (wrap8 lx.line) = L)
    (hne : L ≠ []) (hcm : startsWith2 L = false) :
    (Lexer.next_line lx).1 = L.map specCharToken := by
  rw [next_line_fst, hL]
  unfold classifyLine
  rw [if_neg hne, if_neg (by simp [hcm]), scanLoop_eq]
  simp [List.map_congr_left fun c _ => tokenOfChar_eq_spec c]

/-- Claim C1 witness: the line 1+2 scans to Digit 1, Plus, Digit 2. -/
theorem claim_C1_witness :
    (Lexer.next_line (Lexer.new [['1', '+', '2']])).1 =
      List.map specCharToken ['1', '+', '2'] :=
  claim_C1 (Lexer.new [['1', '+', '2']]) ['1', '+', '2'] (by decide) (by decide) (by decide)

/-- Claim C3: whenever the looked-up line starts with the two characters //,
next_line returns exactly the one-element sequence with the Comment token,
whatever follows the two slashes. -/
theorem claim_C3 (lx : Lexer) (rest : List Char)
    (hL : lookupLine lx.lines 0 (wrap8 lx.line) = '/' :: '/' :: rest) :
    (Lexer.next_line lx).1 = [Token.Comment] := by
  rw [next_line_fst, hL]
  unfold classifyLine
  rw [if_neg (by simp)]
  rfl

/-- Claim C3 witness: a comment line with trailing content collapses to
the single Comment token. -/
theorem claim_C3_witness :
    (Lexer.next_line (Lexer.new [['/', '/', ' ', '1']])).1 = [Token.Comment] :=
  claim_C3 (Lexer.new [['/', '/', ' ', '1']]) [' ', '1'] (by decide)

/-- Claim C4: whenever the looked-up line has zero characters, next_line
returns exactly the one-element sequence with the Empty token. -/
theorem claim_C4 (lx : Lexer)
    (hL : lookupLine lx.lines 0 (wrap8 lx.line) = []) :
    (Lexer.next_line lx).1 = [Token.None] := by
  rw [next_line_fst, hL]
  rfl

/-- Claim C4 witness: a stored empty line yields the Empty token. -/
theorem claim_C4_witness :
    (Lexer.next_line (Lexer.new [[]])).1 = [Token.None] :=
  claim_C4 (Lexer.new [[]]) (by decide)

/-- Claim C5: a call made with the cursor past the last stored line returns
exactly the Empty singleton, and so does every call on a lexer that stores
no lines at all, whatever its cursor holds. The cursor is an i8 field, so
its value is at most 127. -/
theorem claim_C5 (lx : Lexer)
    (h : lx.lines = [] ∨ ((lx.lines.length : Int) ≤ lx.line ∧ lx.line ≤ 127)) :
    (Lexer.next_line lx).1 = [Token.None] := by
  rw [next_line_fst]
  rcases h with h | ⟨h1, h2⟩
  · rw [h]; rfl
  · have h0 : (0 : Int) ≤ lx.line := le_trans (by positivity) h1
    have hw : wrap8 lx.line = lx.line := wrap8_of_range lx.line (by omega) h2
    have hz : (0 : Int) = wrap8 0 := by rw [wrap8_of_range] <;> omega
    rw [hw, hz, lookupLine_none]
    · rfl
    · intro i hi
      have hiw : wrap8 (0 + (i : Int)) = (i : Int) := by
        rw [wrap8_of_range] <;> omega
      rw [hiw]
      omega

/-- Claim C5 witness: a one-line lexer whose cursor already sits past the
stored line returns the Empty token. -/
theorem claim_C5_witness :
    (Lexer.next_line { lines := [['1']], line := 1, count := 0, token := 0 }).1 =
      [Token.None] :=
  claim_C5 { lines := [['1']], line := 1, count := 0, token := 0 }
    (Or.inr (by constructor <;> decide))

/-- Claim C6: next_line is total — every one of n successive calls, for
every lexer state and every n, produces a defined token sequence: the run
of n calls always yields exactly n token sequences. The i8 counters are
modelled with wrapping arithmetic, so no call fails. -/
theorem claim_C6 (lx : Lexer) (n : Nat) : ((runN n lx).1).length = n := by
  induction n generalizing lx with
  | zero => rfl
  | succ n ih => simp [runN, ih]

/-- Claim C8: the only state change of a next_line call is the update of the
line cursor: the stored lines, the count field and the token field are all
returned unchanged. -/
theorem claim_C8 (lx : Lexer) :
    (Lexer.next_line lx).2 =
      { lines := lx.lines, line := wrap8 (lx.line + 1), count := lx.count, token := lx.token } :=
  rfl

/-- Claim C9: classification is content-pure — two lexer states whose
lookups produce identical line content receive identical token sequences,
whatever their cursors, stored lines or histories. -/
theorem claim_C9 (lx1 lx2 : Lexer)
    (h : lookupLine lx1.lines 0 (wrap8 lx1.line) = lookupLine lx2.lines 0 (wrap8 lx2.line)) :
    (Lexer.next_line lx1).1 = (Lexer.next_line lx2).1 := by
  rw [next_line_fst, next_line_fst, h]

/-- Claim C9 witness: the line 1 stored first in one lexer and second in
another classifies identically. -/
theorem claim_C9_witness :
    (Lexer.next_line (Lexer.new [['1']])).1 =
      (Lexer.next_line { lines := [['x'], ['1']], line := 1, count := 0, token := 0 }).1 :=
  claim_C9 (Lexer.new [['1']])
    { lines := [['x'], ['1']], line := 1, count := 0, token := 0 } (by decide)

/-- Claim C10: the sequence returned by next_line is never empty — an empty
or out-of-range lookup yields the Empty singleton, a comment line the
Comment singleton, and any other line one token per character of a
non-empty line. -/
theorem claim_C10 (lx : Lexer) : (Lexer.next_line lx).1 ≠ [] := by
  rw [next_line_fst]
  unfold classifyLine
  split
  · simp
  · split
    · simp
    · rw [scanLoop_eq]
      simp
      intro h
      simp_all

theorem getLast_of_push (xs : List (List Token)) (a : List Token) :
    (xs ++ [a]).getLast? = some a := by
  rw [List.getLast?_append_cons]
  rfl

/-- Claim C2 counterexample: on a scanner holding 257 lines (256 copies of
the line 1 and then the line 2), the 257th call returns the classification
of line 0, not of line 256: the i8 cursor has wrapped after 256 calls. -/
theorem claim_C2_counterexample :
    ((runN 257 (Lexer.new linesCE)).1).getLast? = some [Token.Number 1] ∧
    (linesCE[256]?).map classifyLine = some [Token.Number 2] ∧
    ((runN 257 (Lexer.new linesCE)).1).getLast? ≠ (linesCE[256]?).map classifyLine := by
  have hstate : (runN 256 (Lexer.new linesCE)).2 =
      { lines := linesCE, line := 0, count := 0, token := 0 } := by
    rw [runN_state 256 (Lexer.new linesCE) (by norm_num [Lexer.new]) (by norm_num [Lexer.new])]
    rfl
  have hA : ((runN 257 (Lexer.new linesCE)).1).getLast? = some [Token.Number 1] := by
    show ((runN (256 + 1) (Lexer.new linesCE)).1).getLast? = some [Token.Number 1]
    rw [runN_succ_back, getLast_of_push, hstate, next_line_fst]
    rfl
  have hB : (linesCE[256]?).map classifyLine = some [Token.Number 2] := by
    have h : linesCE[256]? = some ['2'] := by decide
    rw [h]
    rfl
  exact ⟨hA, hB, by rw [hA, hB]; decide⟩

/-- Claim C2 amended: for every scanner constructed with lines L0..Lk and
every call number N whatsoever, the Nth call returns the classification of
line L((N-1) mod 256) whenever that index is in range — for the first 256
calls this is L(N-1) as the original claim states, and from call 257 on the
i8 cursor has wrapped and the sequence of lines repeats with period 256. -/
theorem claim_C2_amended (lines : List (List Char)) (n : Nat)
    (h1 : n % 256 < lines.length) :
    ((runN (n + 1) (Lexer.new lines)).1).getLast? = (lines[n % 256]?).map classifyLine := by
  have hstate : (runN n (Lexer.new lines)).2 =
      { lines := lines, line := wrap8 n, count := 0, token := 0 } := by
    rw [runN_state n (Lexer.new lines) (by norm_num [Lexer.new]) (by norm_num [Lexer.new])]
    show Lexer.mk lines (wrap8 ((0 : Int) + n)) 0 0 = _
    rw [zero_add]
  rw [runN_succ_back, getLast_of_push, hstate, next_line_fst]
  show some (classifyLine (lookupLine lines 0 (wrap8 (wrap8 (n : Int))))) = _
  rw [wrap8_wrap8]
  have hmod : wrap8 (n : Int) = wrap8 ((n % 256 : Nat) : Int) := by
    unfold wrap8; omega
  rw [hmod]
  have hne : ∀ i2 : Nat, i2 < n % 256 →
      wrap8 ((0 : Int) + i2) ≠ wrap8 ((0 : Int) + (n % 256 : Nat)) := by
    intro i2 hlt heq
    rw [zero_add, zero_add] at heq
    have hlt2 : n % 256 ≤ 255 := by omega
    have := wrap8_inj_small (i2 : Int) (((n % 256 : Nat)) : Int) (by positivity) (by omega)
      (by positivity) (by omega) heq
    omega
  have hget : lookupLine lines 0 (wrap8 ((n % 256 : Nat) : Int)) =
      lines.get ⟨n % 256, h1⟩ := by
    have h := lookupLine_get lines (n % 256) 0 h1 hne
    rw [show wrap8 (0 : Int) = 0 from by decide, zero_add] at h
    exact h
  rw [hget, List.getElem?_eq_getElem h1]
  simp [List.get_eq_getElem]

/-- Claim C2 amended witness: on a one-line scanner the 257th call returns
the classification of line 256 mod 256 = 0, exercising the wrapped regime. -/
theorem claim_C2_witness :
    ((runN 257 (Lexer.new [['1']])).1).getLast? =
      (([['1']] : List (List Char))[256 % 256]?).map classifyLine :=
  claim_C2_amended [['1']] 256 (by decide)

/-- Claim C7 counterexample: starting from a scanner with no lines, after
127 calls the cursor holds 127, and the 128th call wraps it to -128 rather
than advancing it to 128: the cursor goes backward. -/
theorem claim_C7_counterexample :
    (runN 127 (Lexer.new [])).2.line = 127 ∧
    (runN 128 (Lexer.new [])).2.line = -128 ∧
    (runN 128 (Lexer.new [])).2.line ≠ (runN 127 (Lexer.new [])).2.line + 1 := by
  have h1 : (runN 127 (Lexer.new [])).2.line = 127 := by
    rw [runN_state 127 (Lexer.new []) (by decide) (by decide)]
    decide
  have h2 : (runN 128 (Lexer.new [])).2.line = -128 := by
    rw [runN_state 128 (Lexer.new []) (by decide) (by decide)]
    decide
  exact ⟨h1, h2, by rw [h1, h2]; decide⟩

/-- Claim C7 amended: every call updates the cursor to the i8 wrap of its
successor; in particular the cursor advances by exactly one whenever its
value is below 127, and at 127 it wraps to -128. -/
theorem claim_C7_amended :
    (∀ lx : Lexer, (Lexer.next_line lx).2.line = wrap8 (lx.line + 1)) ∧
    (∀ lx : Lexer, -128 ≤ lx.line → lx.line < 127 →
      (Lexer.next_line lx).2.line = lx.line + 1) := by
  constructor
  · intro lx; rfl
  · intro lx h1 h2
    show wrap8 (lx.line + 1) = lx.line + 1
    exact wrap8_of_range _ (by omega) (by omega)

/-- Claim C7 amended witness: from the initial state the first call moves
the cursor from 0 to 1. -/
theorem claim_C7_witness :
    (Lexer.next_line (Lexer.new [])).2.line = (Lexer.new []).line + 1 :=
  claim_C7_amended.2 (Lexer.new []) (by decide) (by decide)
